import Mathlib

/-!
Verification of the contact-directory program (hw.py).

The program is embedded shallowly:

* Python `datetime.date` values become the structure `Date` (year, month, day
  as natural numbers).  Python's `date.toordinal` is `toOrdinal`; Python
  compares dates, adds `timedelta(days=k)`, and computes `(a - b).days`
  through this ordinal bijection, so dates appearing *inside* the
  birthday computation (dict keys, congratulation dates) are represented by
  their ordinal.  `weekday` is Python's `date.weekday` (Monday = 0).
* Raised exceptions become `PyError` / `Except` values; the decorator
  `input_error` becomes a total function on `Except PyError String`.
* The `AddressBook` dict (insertion ordered, keyed by the record's name)
  becomes a `List Record` scanned in insertion order; in-place mutation of a
  record found in the book becomes `updateAt`.
* `str.isdigit` on the 10-character phone strings is modelled as "every
  character is a decimal digit" (`Char.isDigit`).
-/

/-- A calendar date, as in Python's `datetime.date`. -/
structure Date where
  year : Nat
  month : Nat
  day : Nat
deriving DecidableEq, Repr

/-- Gregorian leap-year rule used by `datetime`. -/
def isLeap (y : Nat) : Bool :=
  y % 4 == 0 && (y % 100 != 0 || y % 400 == 0)

/-- Length of a month, as enforced by the `datetime.date` constructor. -/
def daysInMonth (y m : Nat) : Nat :=
  match m with
  | 2 => if isLeap y then 29 else 28
  | 4 => 30
  | 6 => 30
  | 9 => 30
  | 11 => 30
  | _ => 31

/-- Days of year `y` that precede month `m` (month numbers start at 1). -/
def daysBeforeMonth (y : Nat) : Nat → Nat
  | 0 => 0
  | 1 => 0
  | m + 2 => daysBeforeMonth y (m + 1) + daysInMonth y (m + 1)

/-- Days in years `1 .. y-1`, the proleptic Gregorian count used by
`date.toordinal`. -/
def daysBeforeYear (y : Nat) : Nat :=
  (y - 1) * 365 + (y - 1) / 4 + (y - 1) / 400 - (y - 1) / 100

/-- Python's `date.toordinal`: day number with `0001-01-01` as day 1. -/
def toOrdinal (dt : Date) : Nat :=
  daysBeforeYear dt.year + daysBeforeMonth dt.year dt.month + dt.day

/-- Python's `date.weekday`: Monday = 0, ..., Sunday = 6. -/
def weekday (dt : Date) : Nat :=
  (toOrdinal dt + 6) % 7

/-- The validity check performed by the `datetime.date` constructor
(and hence by `date.replace`). -/
def isValidDate (dt : Date) : Bool :=
  decide (1 ≤ dt.year ∧ dt.year ≤ 9999 ∧ 1 ≤ dt.month ∧ dt.month ≤ 12 ∧
    1 ≤ dt.day ∧ dt.day ≤ daysInMonth dt.year dt.month)

/-- The exceptions the program raises, as caught by `input_error`. -/
inductive PyError where
  | keyError : PyError
  | valueError : String → PyError
  | indexError : PyError
  | otherError : String → PyError
deriving DecidableEq, Repr

/-- Message of the `ValueError` raised by `Phone.validate` (hw.py line 20). -/
def phoneErrMsg : String := "Phone number must contain 10 digits."

/-- Message of the `ValueError` raised by `Birthday.__init__` (hw.py line 28). -/
def birthdayErrMsg : String := "Invalid date format. Use YYYY.MM.DD"

/-- The condition checked by `Phone.validate` (hw.py lines 18-20):
length exactly 10 and all characters decimal digits. -/
def phoneOk (s : String) : Bool :=
  s.length == 10 && s.data.all Char.isDigit

/-- `Phone.validate` (hw.py lines 17-20): raises
`ValueError("Phone number must contain 10 digits.")` unless the value is 10
digit characters. -/
def Phone.validate (s : String) : Except PyError Unit :=
  if phoneOk s then .ok () else .error (.valueError phoneErrMsg)

/-- Numeric value of a digit character. -/
def charVal (c : Char) : Nat := c.toNat - 48

/-- The digit character of `n % 10`. -/
def digitChar (n : Nat) : Char := Char.ofNat (48 + n % 10)

/-- `Birthday.__init__` (hw.py lines 24-28): `datetime.strptime(value,
"%Y.%m.%d")`, failing with `ValueError("Invalid date format. Use YYYY.MM.DD")`
when the text does not match the pattern or is not a real calendar date. -/
def parseBirthday (s : String) : Except PyError Date :=
  match s.data with
  | [y1, y2, y3, y4, p1, m1, m2, p2, d1, d2] =>
    if p1 = '.' ∧ p2 = '.' ∧ y1.isDigit ∧ y2.isDigit ∧ y3.isDigit ∧ y4.isDigit ∧
        m1.isDigit ∧ m2.isDigit ∧ d1.isDigit ∧ d2.isDigit then
      if isValidDate ⟨charVal y1 * 1000 + charVal y2 * 100 + charVal y3 * 10 + charVal y4,
                      charVal m1 * 10 + charVal m2,
                      charVal d1 * 10 + charVal d2⟩ then
        .ok ⟨charVal y1 * 1000 + charVal y2 * 100 + charVal y3 * 10 + charVal y4,
             charVal m1 * 10 + charVal m2,
             charVal d1 * 10 + charVal d2⟩
      else .error (.valueError birthdayErrMsg)
    else .error (.valueError birthdayErrMsg)
  | _ => .error (.valueError birthdayErrMsg)

/-- `Birthday.__str__` (hw.py lines 30-31): `strftime("%Y.%m.%d")`,
zero-padded 4-2-2 digit groups. -/
def renderDate (dt : Date) : String :=
  ⟨[digitChar (dt.year / 1000), digitChar (dt.year / 100), digitChar (dt.year / 10),
    digitChar dt.year, '.',
    digitChar (dt.month / 10), digitChar dt.month, '.',
    digitChar (dt.day / 10), digitChar dt.day]⟩

/-- Whether a string has the 4-2-2 digit-group shape with period separators
(the shape `strptime("%Y.%m.%d")` accepts in its canonical zero-padded form). -/
def isPattern (s : String) : Bool :=
  match s.data with
  | [y1, y2, y3, y4, p1, m1, m2, p2, d1, d2] =>
    decide (p1 = '.' ∧ p2 = '.' ∧ y1.isDigit ∧ y2.isDigit ∧ y3.isDigit ∧ y4.isDigit ∧
      m1.isDigit ∧ m2.isDigit ∧ d1.isDigit ∧ d2.isDigit)
  | _ => false

/-- The date denoted by a string of the 4-2-2 pattern (junk off-pattern). -/
def decodePattern (s : String) : Date :=
  match s.data with
  | [y1, y2, y3, y4, _, m1, m2, _, d1, d2] =>
    ⟨charVal y1 * 1000 + charVal y2 * 100 + charVal y3 * 10 + charVal y4,
     charVal m1 * 10 + charVal m2,
     charVal d1 * 10 + charVal d2⟩
  | _ => ⟨0, 0, 0⟩

/-- A contact record (hw.py lines 34-38): name, ordered phone list,
optional birthday. -/
structure Record where
  name : String
  phones : List String
  birthday : Option Date
deriving DecidableEq, Repr

/-- `Record.add_phone` (hw.py lines 40-43): validate, then append.  The pair
returns the record state after the call together with the raised exception,
if any (on failure the phone list is unchanged). -/
def Record.add_phone (r : Record) (phone : String) : Record × Option PyError :=
  if phoneOk phone then ({ r with phones := r.phones ++ [phone] }, none)
  else (r, some (.valueError phoneErrMsg))

/-- `Record.remove_phone` (hw.py lines 45-46): drop every phone equal to the
argument; never fails. -/
def Record.remove_phone (r : Record) (phone : String) : Record :=
  { r with phones := r.phones.filter (fun p => p != phone) }

/-- `Record.edit_phone` (hw.py lines 48-50): `remove_phone old` then
`add_phone new`. -/
def Record.edit_phone (r : Record) (old_phone new_phone : String) : Record × Option PyError :=
  (r.remove_phone old_phone).add_phone new_phone

/-- `Record.add_birthday` (hw.py lines 52-53): parse and overwrite; on
failure the prior birthday is unchanged. -/
def Record.add_birthday (r : Record) (birthday : String) : Record × Option PyError :=
  match parseBirthday birthday with
  | .ok dt => ({ r with birthday := some dt }, none)
  | .error e => (r, some e)

/-- `Record.__str__` (hw.py lines 55-58). -/
def recordStr (r : Record) : String :=
  "Contact name: " ++ r.name ++ ", phones: " ++ String.intercalate ", " r.phones ++
    (match r.birthday with
     | some b => ", birthday: " ++ renderDate b
     | none => "")

/-- The `AddressBook` dict (hw.py line 61), in insertion order, keyed by each
record's name. -/
def AddressBook := List Record

/-- `AddressBook.find` (hw.py lines 65-66): `self.data.get(name)`. -/
def AddressBook.find (book : List Record) (name : String) : Option Record :=
  book.find? (fun r => r.name == name)

/-- `AddressBook.add_record` (hw.py lines 62-63): `self.data[record.name.value]
= record` — overwrite in place if the key exists, append otherwise. -/
def AddressBook.add_record (book : List Record) (r : Record) : List Record :=
  if book.any (fun x => x.name == r.name) then
    book.map (fun x => if x.name == r.name then r else x)
  else
    book ++ [r]

/-- `AddressBook.delete` (hw.py lines 68-70). -/
def AddressBook.delete (book : List Record) (name : String) : List Record :=
  book.filter (fun r => r.name != name)

/-- In-place mutation of the record stored under `name` (the Python handlers
mutate the object held by the dict, which leaves it at its position). -/
def updateAt (book : List Record) (name : String) (r : Record) : List Record :=
  book.map (fun x => if x.name == name then r else x)

/-- One element of the list returned by `get_upcoming_birthdays` (hw.py
lines 109-110).  The congratulation date is represented by its
`date.toordinal` value. -/
structure Entry where
  name : String
  congratulation_ord : Nat
  days_until_birthday : Int
deriving DecidableEq, Repr

/-- `date.replace(year := y)` (hw.py lines 80 and 83-84): keep month and day,
revalidate; `none` models the raised `ValueError` (e.g. Feb 29 in a
non-leap year). -/
def replaceYear (b : Date) (y : Nat) : Option Date :=
  if isValidDate ⟨y, b.month, b.day⟩ then some ⟨y, b.month, b.day⟩ else none

/-- Message of the `ValueError` raised by the `date` constructor when the day
does not exist in the target month (the Feb-29 projection case). -/
def dateRangeErrMsg : String := "day is out of range for month"

/-- hw.py lines 79-84: project the stored birthday onto this year; if that
projected date is before today, re-project onto next year.  An invalid
projection raises (modelled as `.error`). -/
def projectOnto (b today : Date) : Except String Date :=
  match replaceYear b today.year with
  | none => .error dateRangeErrMsg
  | some bty =>
    if toOrdinal bty < toOrdinal today then
      match replaceYear bty (today.year + 1) with
      | none => .error dateRangeErrMsg
      | some bty2 => .ok bty2
    else .ok bty

/-- hw.py lines 86-93: shift a Saturday two days and a Sunday one day
forward, to the following Monday (ordinal of the congratulation date). -/
def congOrd (bty : Date) : Nat :=
  if weekday bty == 5 then toOrdinal bty + 2
  else if weekday bty == 6 then toOrdinal bty + 1
  else toOrdinal bty

/-- Insertion into `birthdays_dict` (hw.py lines 98-103): append the name to
the group of an existing congratulation date, else add a new group at the
end (Python dicts preserve insertion order). -/
def insertBirthday (dict : List (Nat × List String)) (key : Nat) (name : String) :
    List (Nat × List String) :=
  match dict with
  | [] => [(key, [name])]
  | (k, ns) :: rest =>
    if k = key then (k, ns ++ [name]) :: rest
    else (k, ns) :: insertBirthday rest key name

/-- The record loop of `get_upcoming_birthdays` (hw.py lines 77-103):
build `birthdays_dict`, propagating the first raised projection error. -/
def buildDict (today : Date) : List Record → List (Nat × List String) →
    Except String (List (Nat × List String))
  | [], dict => .ok dict
  | r :: rs, dict =>
    match r.birthday with
    | none => buildDict today rs dict
    | some b =>
      match projectOnto b today with
      | .error e => .error e
      | .ok bty =>
        buildDict today rs
          (if (congOrd bty : Int) - (toOrdinal today : Int) ≤ 7 then
             insertBirthday dict (congOrd bty) r.name
           else dict)

/-- An output entry for congratulation ordinal `k` and contact `n`
(hw.py lines 107-110 recompute `days_until_birthday` from the stored
congratulation date). -/
def mkEntry (today : Date) (k : Nat) (n : String) : Entry :=
  ⟨n, k, (k : Int) - (toOrdinal today : Int)⟩

/-- The output loop of `get_upcoming_birthdays` (hw.py lines 105-110):
flatten `birthdays_dict` in its stored (insertion) order. -/
def flattenDict (today : Date) (dict : List (Nat × List String)) : List Entry :=
  dict.flatMap (fun kv => kv.2.map (mkEntry today kv.1))

/-- `AddressBook.get_upcoming_birthdays` (hw.py lines 72-112).  In the source
`today` is read from the clock (`datetime.today().date()`); it is passed
explicitly here. -/
def get_upcoming_birthdays (book : List Record) (today : Date) :
    Except String (List Entry) :=
  (buildDict today book []).map (flattenDict today)

/-- The included entries in directory-scan order, before the dict grouping:
one entry per record whose projected birthday passes the `days <= 7` filter
of hw.py line 97, in the order records are scanned. -/
def scanOrderEntries (today : Date) : List Record → Except String (List Entry)
  | [] => .ok []
  | r :: rs =>
    match r.birthday with
    | none => scanOrderEntries today rs
    | some b =>
      match projectOnto b today with
      | .error e => .error e
      | .ok bty =>
        match scanOrderEntries today rs with
        | .error e => .error e
        | .ok rest =>
          .ok (if (congOrd bty : Int) - (toOrdinal today : Int) ≤ 7 then
                 ⟨r.name, congOrd bty, (congOrd bty : Int) - (toOrdinal today : Int)⟩ :: rest
               else rest)

/-- The distinct elements of a list in order of first occurrence. -/
def keysFirstSeen : List Nat → List Nat
  | [] => []
  | k :: ks => k :: keysFirstSeen (ks.filter (fun x => x != k))
termination_by l => l.length
decreasing_by
  simp only [List.length_cons]
  exact Nat.lt_succ_of_le (List.length_filter_le _ _)

/-- Modelled from the spec's amended ordering: group entries by
congratulation date, the groups in order of first encounter, preserving scan
order inside each group. -/
def groupByFirstSeenDate (es : List Entry) : List Entry :=
  (keysFirstSeen (es.map (fun e => e.congratulation_ord))).flatMap
    (fun k => es.filter (fun e => e.congratulation_ord == k))

/-- The `input_error` decorator (hw.py lines 115-127): convert each caught
exception to its user-facing string. -/
def input_error (r : Except PyError String) : String :=
  match r with
  | .ok s => s
  | .error .keyError => "Contact not found."
  | .error (.valueError m) => m
  | .error .indexError => "Missing required arguments."
  | .error (.otherError m) => "An unexpected error occurred: " ++ m

/-- Body of `add_contact` (hw.py lines 136-146) before the decorator: the
new-name branch first inserts an empty record, then the phone loop mutates
it in place; the loop stops at the first invalid phone, whose exception
escapes to the decorator. -/
def addPhonesLoop (r : Record) : List String → Record × Option PyError
  | [] => (r, none)
  | p :: ps =>
    match r.add_phone p with
    | (r', none) => addPhonesLoop r' ps
    | (r', some e) => (r', some e)

/-- `add_contact` body (hw.py lines 136-146): returns the book state and the
result the decorator sees. -/
def add_contact_body (book : List Record) (name : String) (phones : List String) :
    List Record × Except PyError String :=
  match AddressBook.find book name with
  | none =>
    (updateAt (AddressBook.add_record book ⟨name, [], none⟩) name
       (addPhonesLoop ⟨name, [], none⟩ phones).1,
     match (addPhonesLoop ⟨name, [], none⟩ phones).2 with
     | none => .ok "Contact added."
     | some e => .error e)
  | some r =>
    (updateAt book name (addPhonesLoop r phones).1,
     match (addPhonesLoop r phones).2 with
     | none => .ok "Contact updated."
     | some e => .error e)

/-- The `add_contact` handler (decorated, hw.py lines 135-146). -/
def add_contact (book : List Record) (name : String) (phones : List String) :
    List Record × String :=
  ((add_contact_body book name phones).1, input_error (add_contact_body book name phones).2)

/-- `change_contact` body (hw.py lines 150-156). -/
def change_contact_body (book : List Record) (name old_phone new_phone : String) :
    List Record × Except PyError String :=
  match AddressBook.find book name with
  | some r =>
    (updateAt book name (r.edit_phone old_phone new_phone).1,
     match (r.edit_phone old_phone new_phone).2 with
     | none => .ok "Contact updated."
     | some e => .error e)
  | none => (book, .error .keyError)

/-- The `change_contact` handler (decorated, hw.py lines 149-156). -/
def change_contact (book : List Record) (name old_phone new_phone : String) :
    List Record × String :=
  ((change_contact_body book name old_phone new_phone).1,
   input_error (change_contact_body book name old_phone new_phone).2)

/-- `show_phone` body (hw.py lines 160-165). -/
def show_phone_body (book : List Record) (name : String) : Except PyError String :=
  match AddressBook.find book name with
  | some r => .ok (recordStr r)
  | none => .error .keyError

/-- The `show_phone` handler (decorated, hw.py lines 159-165). -/
def show_phone (book : List Record) (name : String) : String :=
  input_error (show_phone_body book name)

/-- `add_birthday` body (hw.py lines 177-183). -/
def add_birthday_body (book : List Record) (name birthday : String) :
    List Record × Except PyError String :=
  match AddressBook.find book name with
  | some r =>
    (updateAt book name (r.add_birthday birthday).1,
     match (r.add_birthday birthday).2 with
     | none => .ok "Birthday added."
     | some e => .error e)
  | none => (book, .error .keyError)

/-- The `add_birthday` handler (decorated, hw.py lines 176-183). -/
def add_birthday (book : List Record) (name birthday : String) :
    List Record × String :=
  ((add_birthday_body book name birthday).1,
   input_error (add_birthday_body book name birthday).2)

/-- `show_birthday` body (hw.py lines 187-192): a found record without a
birthday falls into the same `raise KeyError` branch as a missing record. -/
def show_birthday_body (book : List Record) (name : String) : Except PyError String :=
  match AddressBook.find book name with
  | some r =>
    match r.birthday with
    | some b => .ok (name ++ "\x27s birthday is " ++ renderDate b)
    | none => .error .keyError
  | none => .error .keyError

/-- The `show_birthday` handler (decorated, hw.py lines 186-192). -/
def show_birthday (book : List Record) (name : String) : String :=
  input_error (show_birthday_body book name)

/-! ## Theorems -/

/-- C5: `Phone.validate` succeeds exactly on strings of exactly 10 characters
that are all decimal digits, and fails with the InvalidPhone condition
(a `ValueError` carrying the fixed message) on every other string. -/
theorem phone_validate_iff (s : String) :
    (Phone.validate s = .ok () ↔ s.length = 10 ∧ ∀ c ∈ s.data, c.isDigit = true) ∧
    (Phone.validate s = .error (.valueError "Phone number must contain 10 digits.") ↔
      ¬ (s.length = 10 ∧ ∀ c ∈ s.data, c.isDigit = true)) := by
  have hiff : phoneOk s = true ↔ (s.length = 10 ∧ ∀ c ∈ s.data, c.isDigit = true) := by
    simp [phoneOk, List.all_eq_true]
  by_cases hc : s.length = 10 ∧ ∀ c ∈ s.data, c.isDigit = true
  · have hb : phoneOk s = true := hiff.mpr hc
    exact ⟨iff_of_true (by simp [Phone.validate, hb]) hc,
           iff_of_false (by simp [Phone.validate, hb]) (not_not_intro hc)⟩
  · have hb : phoneOk s = false := by
      cases h2 : phoneOk s
      · rfl
      · exact absurd (hiff.mp h2) hc
    exact ⟨iff_of_false (by simp [Phone.validate, hb]) hc,
           iff_of_true (by simp [Phone.validate, hb, phoneErrMsg]) hc⟩

/-- C6: when the new phone fails validation, `edit_phone old new` leaves the
record with every phone equal to `old` removed and `new` not added, and
reports the InvalidPhone failure — the remove-then-add ordering is observable
in this partial-failure state. -/
theorem edit_phone_partial_failure (r : Record) (old_phone new_phone : String)
    (h : phoneOk new_phone = false) :
    r.edit_phone old_phone new_phone =
      (⟨r.name, r.phones.filter (fun p => p != old_phone), r.birthday⟩,
       some (.valueError "Phone number must contain 10 digits.")) := by
  simp [Record.edit_phone, Record.remove_phone, Record.add_phone, h, phoneErrMsg]

/-- Witness for C6 at a concrete record: the sole phone equal to `old` is
removed and the invalid `new` is not added. -/
theorem edit_phone_partial_failure_witness :
    phoneOk "123" = false ∧
    Record.edit_phone ⟨"John", ["0000000000"], none⟩ "0000000000" "123" =
      (⟨"John", [], none⟩, some (.valueError "Phone number must contain 10 digits.")) :=
  ⟨by decide, edit_phone_partial_failure ⟨"John", ["0000000000"], none⟩ "0000000000" "123" (by decide)⟩

/-- C9: the `input_error` wrapper turns every outcome into a plain string:
success passes through, `KeyError` becomes "Contact not found.",
the two domain `ValueError`s keep their fixed messages, `IndexError` becomes
"Missing required arguments.", and any other exception becomes the generic
fallback; every embedded handler factors through this wrapper, so none of
them propagates a failure to its caller. -/
theorem input_error_mapping :
    (∀ s, input_error (.ok s) = s) ∧
    input_error (.error .keyError) = "Contact not found." ∧
    input_error (.error (.valueError "Phone number must contain 10 digits.")) =
      "Phone number must contain 10 digits." ∧
    input_error (.error (.valueError "Invalid date format. Use YYYY.MM.DD")) =
      "Invalid date format. Use YYYY.MM.DD" ∧
    input_error (.error .indexError) = "Missing required arguments." ∧
    (∀ m, input_error (.error (.otherError m)) = "An unexpected error occurred: " ++ m) ∧
    (∀ book name phones,
      (add_contact book name phones).2 = input_error (add_contact_body book name phones).2) ∧
    (∀ book name old_phone new_phone,
      (change_contact book name old_phone new_phone).2 =
        input_error (change_contact_body book name old_phone new_phone).2) ∧
    (∀ book name, show_phone book name = input_error (show_phone_body book name)) ∧
    (∀ book name birthday,
      (add_birthday book name birthday).2 = input_error (add_birthday_body book name birthday).2) ∧
    (∀ book name, show_birthday book name = input_error (show_birthday_body book name)) :=
  ⟨fun _ => rfl, rfl, rfl, rfl, rfl, fun _ => rfl, fun _ _ _ => rfl,
   fun _ _ _ _ => rfl, fun _ _ => rfl, fun _ _ _ => rfl, fun _ _ => rfl⟩

/-- C10: `show_birthday` on an existing contact that has no birthday set
returns "Contact not found.", the same message as for a missing contact. -/
theorem show_birthday_without_birthday (book : List Record) (name : String) (r : Record)
    (hfind : AddressBook.find book name = some r) (hb : r.birthday = none) :
    show_birthday book name = "Contact not found." := by
  simp [show_birthday, show_birthday_body, hfind, hb, input_error]

/-- Witness for C10: a one-contact book whose record has no birthday. -/
theorem show_birthday_without_birthday_witness :
    AddressBook.find [⟨"Ann", [], none⟩] "Ann" = some ⟨"Ann", [], none⟩ ∧
    (⟨"Ann", [], none⟩ : Record).birthday = none ∧
    show_birthday [⟨"Ann", [], none⟩] "Ann" = "Contact not found." :=
  ⟨rfl, rfl, show_birthday_without_birthday [⟨"Ann", [], none⟩] "Ann" ⟨"Ann", [], none⟩ rfl rfl⟩

/-- C1: with today = 2024-05-17 (a Friday) and a stored birthday with
month/day 05-18, `get_upcoming_birthdays` returns the contact with
congratulation date 2024-05-20 — the Saturday 2024-05-18 (weekday 5) shifted
two days to the Monday (weekday 0) — and `days_until_birthday = 3`. -/
theorem upcoming_saturday_shifted_to_monday :
    get_upcoming_birthdays [⟨"John", [], some ⟨1985, 5, 18⟩⟩] ⟨2024, 5, 17⟩ =
      .ok [⟨"John", toOrdinal ⟨2024, 5, 20⟩, 3⟩] ∧
    weekday ⟨2024, 5, 17⟩ = 4 ∧
    weekday ⟨2024, 5, 18⟩ = 5 ∧
    toOrdinal ⟨2024, 5, 20⟩ = toOrdinal ⟨2024, 5, 18⟩ + 2 ∧
    weekday ⟨2024, 5, 20⟩ = 0 :=
  ⟨rfl, by decide, by decide, by decide, by decide⟩

/-- C4 (code bug): a stored Feb 29 birthday (a valid date of the leap year
2000) projected onto the non-leap year 2025 makes `get_upcoming_birthdays`
raise the date-construction `ValueError` instead of clamping or skipping. -/
theorem upcoming_feb29_raises :
    isValidDate ⟨2000, 2, 29⟩ = true ∧
    isLeap 2025 = false ∧
    get_upcoming_birthdays [⟨"Leap", [], some ⟨2000, 2, 29⟩⟩] ⟨2025, 1, 1⟩ =
      .error "day is out of range for month" :=
  ⟨by decide, by decide, rfl⟩

/-- C2 counterexample: scanning Alice (congratulation date 2024-05-24)
before Bob (congratulation date 2024-05-20), the returned sequence keeps the
first-encounter order of the dict keys, so it is not ordered by observed
date ascending. -/
theorem upcoming_not_sorted_by_date :
    get_upcoming_birthdays
      [⟨"Alice", [], some ⟨1990, 5, 24⟩⟩, ⟨"Bob", [], some ⟨1990, 5, 18⟩⟩]
      ⟨2024, 5, 17⟩ =
      .ok [⟨"Alice", toOrdinal ⟨2024, 5, 24⟩, 7⟩, ⟨"Bob", toOrdinal ⟨2024, 5, 20⟩, 3⟩] ∧
    toOrdinal ⟨2024, 5, 20⟩ < toOrdinal ⟨2024, 5, 24⟩ :=
  ⟨rfl, by decide⟩

/-- The phone loop of `add_contact` appends all phones when every one of
them passes validation. -/
theorem addPhonesLoop_all_valid (ps : List String) : ∀ (r : Record),
    (∀ p ∈ ps, phoneOk p = true) →
    addPhonesLoop r ps = ({ r with phones := r.phones ++ ps }, none) := by
  induction ps with
  | nil => intro r _; simp [addPhonesLoop]
  | cons p ps ih =>
    intro r h
    have hp : phoneOk p = true := h p (by simp)
    rw [addPhonesLoop, Record.add_phone]
    simp only [hp, if_true]
    rw [ih _ (fun q hq => h q (by simp [hq]))]
    simp

/-- `updateAt` is the identity when no record in the book has the name. -/
theorem updateAt_of_absent (book : List Record) (name : String) (r1 : Record)
    (hall : ∀ x ∈ book, (x.name == name) = false) :
    updateAt book name r1 = book := by
  unfold updateAt
  have h : book.map (fun x => if x.name == name then r1 else x) = book.map id :=
    List.map_congr_left (fun a ha => by simp [hall a ha])
  rw [h, List.map_id]

/-- `updateAt` distributes over append. -/
theorem updateAt_append (l₁ l₂ : List Record) (name : String) (r1 : Record) :
    updateAt (l₁ ++ l₂) name r1 = updateAt l₁ name r1 ++ updateAt l₂ name r1 := by
  simp [updateAt]

/-- `add_contact` on a name absent from the book appends exactly one record
holding the given (all-valid) phones and reports "Contact added.". -/
theorem add_contact_new_case (book : List Record) (name : String) (phones : List String)
    (hall : ∀ x ∈ book, (x.name == name) = false)
    (hv : ∀ p ∈ phones, phoneOk p = true) :
    add_contact book name phones = (book ++ [⟨name, phones, none⟩], "Contact added.") := by
  have hnew : AddressBook.find book name = none :=
    List.find?_eq_none.mpr (fun x hx => by simp [hall x hx])
  have hany : (book.any (fun x => x.name == name)) = false :=
    List.any_eq_false.mpr (fun x hx => by simp [hall x hx])
  have hbody : add_contact_body book name phones =
      (book ++ [⟨name, phones, none⟩], .ok "Contact added.") := by
    simp only [add_contact_body, hnew,
      addPhonesLoop_all_valid phones ⟨name, [], none⟩ hv]
    rw [AddressBook.add_record, if_neg (by simp [hany])]
    rw [updateAt_append, updateAt_of_absent book name _ hall]
    simp [updateAt]
  simp [add_contact, hbody, input_error]

/-- `add_contact` on a name whose record sits at the end of the book keeps
the book length, appends the (all-valid) phones to that record, and reports
"Contact updated.". -/
theorem add_contact_existing_case (book : List Record) (name : String)
    (phones : List String) (r : Record)
    (hall : ∀ x ∈ book, (x.name == name) = false)
    (hv : ∀ p ∈ phones, phoneOk p = true)
    (hrname : r.name = name) :
    add_contact (book ++ [r]) name phones =
      (book ++ [{ r with phones := r.phones ++ phones }], "Contact updated.") := by
  have hfind : AddressBook.find (book ++ [r]) name = some r := by
    unfold AddressBook.find
    rw [List.find?_append, List.find?_eq_none.mpr (fun x hx => by simp [hall x hx])]
    simp [List.find?, hrname]
  have hbody : add_contact_body (book ++ [r]) name phones =
      (book ++ [{ r with phones := r.phones ++ phones }], .ok "Contact updated.") := by
    simp only [add_contact_body, hfind, addPhonesLoop_all_valid phones r hv]
    rw [updateAt_append, updateAt_of_absent book name _ hall]
    simp [updateAt, hrname]
  simp [add_contact, hbody, input_error]

/-- C7: with valid phones, `add_contact` on a fresh name grows the directory
by exactly one record and returns "Contact added."; a second call with the
same name returns "Contact updated.", appends its phones to the existing
record instead of creating another one, and the directory still holds
exactly one record under that name. -/
theorem add_contact_adds_then_updates (book : List Record) (name : String)
    (ph1 ph2 : List String)
    (hnodup : (book.map Record.name).Nodup)
    (hnew : AddressBook.find book name = none)
    (hv1 : ∀ p ∈ ph1, phoneOk p = true) (hv2 : ∀ p ∈ ph2, phoneOk p = true) :
    (add_contact book name ph1).2 = "Contact added." ∧
    (add_contact book name ph1).1.length = book.length + 1 ∧
    (add_contact (add_contact book name ph1).1 name ph2).2 = "Contact updated." ∧
    (add_contact (add_contact book name ph1).1 name ph2).1.length = book.length + 1 ∧
    AddressBook.find (add_contact (add_contact book name ph1).1 name ph2).1 name =
      some ⟨name, ph1 ++ ph2, none⟩ ∧
    ((add_contact (add_contact book name ph1).1 name ph2).1.map Record.name).Nodup ∧
    List.countP (fun r => r.name == name)
      (add_contact (add_contact book name ph1).1 name ph2).1 = 1 := by
  have hall : ∀ x ∈ book, (x.name == name) = false := by
    intro x hx
    have h := List.find?_eq_none.mp hnew x hx
    simpa using h
  have h1 := add_contact_new_case book name ph1 hall hv1
  have h2 := add_contact_existing_case book name ph2 ⟨name, ph1, none⟩ hall hv2 rfl
  rw [h1]
  simp only [h2]
  have hfind2 : AddressBook.find
      (book ++ [{ (⟨name, ph1, none⟩ : Record) with phones := ph1 ++ ph2 }]) name =
      some ⟨name, ph1 ++ ph2, none⟩ := by
    unfold AddressBook.find
    rw [List.find?_append, List.find?_eq_none.mpr (fun x hx => by simp [hall x hx])]
    simp [List.find?]
  have hne : ∀ x ∈ book, ¬ (x.name = name) := fun x hx => by
    have := hall x hx; simpa using this
  refine ⟨by simp, by simp, by simp, by simp, by simpa using hfind2, ?_, ?_⟩
  · rw [List.map_append]
    rw [List.nodup_append]
    refine ⟨hnodup, by simp, ?_⟩
    intro a ha
    simp only [List.map_cons, List.map_nil, List.mem_cons, List.not_mem_nil, or_false]
    intro heq
    rcases List.mem_map.mp ha with ⟨x, hx, hxa⟩
    exact hne x hx (by rw [← hxa] at heq; exact heq)
  · rw [List.countP_append]
    rw [List.countP_eq_zero.mpr (fun x hx => by simp [hall x hx])]
    simp [List.countP, List.countP.go]

/-- Witness for C7: two calls on an empty book with one valid phone each. -/
theorem add_contact_adds_then_updates_witness :
    (add_contact [] "Bob" ["0123456789"]).2 = "Contact added." ∧
    (add_contact [] "Bob" ["0123456789"]).1.length = 1 ∧
    (add_contact (add_contact [] "Bob" ["0123456789"]).1 "Bob" ["1112223334"]).2 =
      "Contact updated." ∧
    (add_contact (add_contact [] "Bob" ["0123456789"]).1 "Bob" ["1112223334"]).1.length = 1 ∧
    AddressBook.find
      (add_contact (add_contact [] "Bob" ["0123456789"]).1 "Bob" ["1112223334"]).1 "Bob" =
      some ⟨"Bob", ["0123456789", "1112223334"], none⟩ ∧
    ((add_contact (add_contact [] "Bob" ["0123456789"]).1 "Bob" ["1112223334"]).1.map
      Record.name).Nodup ∧
    List.countP (fun r => r.name == "Bob")
      (add_contact (add_contact [] "Bob" ["0123456789"]).1 "Bob" ["1112223334"]).1 = 1 := by
  have h := add_contact_adds_then_updates [] "Bob" ["0123456789"] ["1112223334"]
    (by simp) rfl (by decide) (by decide)
  simpa using h

/-- `Char.isDigit` in terms of the character code. -/
theorem isDigit_iff_toNat (c : Char) : c.isDigit = true ↔ 48 ≤ c.toNat ∧ c.toNat ≤ 57 := by
  simp only [Char.isDigit, Bool.and_eq_true, decide_eq_true_eq]
  exact Iff.rfl

/-- `digitChar` recovers a digit character from any number whose last decimal
digit is the character's value. -/
theorem digitChar_eq (c : Char) (n : Nat) (h : 48 ≤ c.toNat ∧ c.toNat ≤ 57)
    (hn : n % 10 = c.toNat - 48) : digitChar n = c := by
  unfold digitChar
  rw [hn]
  have h2 : 48 + (c.toNat - 48) = c.toNat := by omega
  rw [h2, Char.ofNat_toNat]

/-- Extracting one decimal digit of a positionally built number. -/
theorem digit_of (q r d p : Nat) (hp : 0 < p) (hr : r < p) (hd : d ≤ 9) :
    ((p * (10 * q + d) + r) / p) % 10 = d := by
  rw [Nat.mul_add_div hp, Nat.div_eq_of_lt hr, Nat.add_zero, Nat.mul_add_mod]
  exact Nat.mod_eq_of_lt (by omega)

/-- C8: every string of the 4-2-2 digit pattern that denotes a real calendar
date is parsed successfully by the Birthday constructor, and rendering the
stored date with `strftime("%Y.%m.%d")` reproduces the identical string. -/
theorem birthday_parse_render_roundtrip (s : String)
    (hpat : isPattern s = true)
    (hval : isValidDate (decodePattern s) = true) :
    parseBirthday s = .ok (decodePattern s) ∧ renderDate (decodePattern s) = s := by
  obtain ⟨l⟩ := s
  rcases l with _ | ⟨c1, _ | ⟨c2, _ | ⟨c3, _ | ⟨c4, _ | ⟨c5, _ | ⟨c6, _ | ⟨c7, _ | ⟨c8,
    _ | ⟨c9, _ | ⟨c10, _ | ⟨c11, rest⟩⟩⟩⟩⟩⟩⟩⟩⟩⟩⟩
  all_goals simp only [isPattern] at hpat
  all_goals try exact absurd hpat Bool.false_ne_true
  case _ =>
    rw [decide_eq_true_eq] at hpat
    obtain ⟨hp1, hp2, hd1, hd2, hd3, hd4, hd6, hd7, hd9, hd10⟩ := hpat
    have hb1 := (isDigit_iff_toNat c1).mp hd1
    have hb2 := (isDigit_iff_toNat c2).mp hd2
    have hb3 := (isDigit_iff_toNat c3).mp hd3
    have hb4 := (isDigit_iff_toNat c4).mp hd4
    have hb6 := (isDigit_iff_toNat c6).mp hd6
    have hb7 := (isDigit_iff_toNat c7).mp hd7
    have hb9 := (isDigit_iff_toNat c9).mp hd9
    have hb10 := (isDigit_iff_toNat c10).mp hd10
    have hv1 : charVal c1 ≤ 9 := by unfold charVal; omega
    have hv2 : charVal c2 ≤ 9 := by unfold charVal; omega
    have hv3 : charVal c3 ≤ 9 := by unfold charVal; omega
    have hv4 : charVal c4 ≤ 9 := by unfold charVal; omega
    have hv6 : charVal c6 ≤ 9 := by unfold charVal; omega
    have hv7 : charVal c7 ≤ 9 := by unfold charVal; omega
    have hv9 : charVal c9 ≤ 9 := by unfold charVal; omega
    have hv10 : charVal c10 ≤ 9 := by unfold charVal; omega
    have hdec : decodePattern ⟨[c1, c2, c3, c4, c5, c6, c7, c8, c9, c10]⟩ =
        ⟨charVal c1 * 1000 + charVal c2 * 100 + charVal c3 * 10 + charVal c4,
         charVal c6 * 10 + charVal c7, charVal c9 * 10 + charVal c10⟩ := by
      simp [decodePattern]
    rw [hdec] at hval ⊢
    have e1 : (charVal c1 * 1000 + charVal c2 * 100 + charVal c3 * 10 + charVal c4)
        / 1000 % 10 = charVal c1 := by
      rw [show charVal c1 * 1000 + charVal c2 * 100 + charVal c3 * 10 + charVal c4 =
        1000 * (10 * 0 + charVal c1) + (charVal c2 * 100 + charVal c3 * 10 + charVal c4)
        from by ring]
      exact digit_of 0 _ (charVal c1) 1000 (by norm_num) (by omega) hv1
    have e2 : (charVal c1 * 1000 + charVal c2 * 100 + charVal c3 * 10 + charVal c4)
        / 100 % 10 = charVal c2 := by
      rw [show charVal c1 * 1000 + charVal c2 * 100 + charVal c3 * 10 + charVal c4 =
        100 * (10 * charVal c1 + charVal c2) + (charVal c3 * 10 + charVal c4)
        from by ring]
      exact digit_of (charVal c1) _ (charVal c2) 100 (by norm_num) (by omega) hv2
    have e3 : (charVal c1 * 1000 + charVal c2 * 100 + charVal c3 * 10 + charVal c4)
        / 10 % 10 = charVal c3 := by
      rw [show charVal c1 * 1000 + charVal c2 * 100 + charVal c3 * 10 + charVal c4 =
        10 * (10 * (10 * charVal c1 + charVal c2) + charVal c3) + charVal c4
        from by ring]
      exact digit_of (10 * charVal c1 + charVal c2) _ (charVal c3) 10
        (by norm_num) (by omega) hv3
    have e4 : (charVal c1 * 1000 + charVal c2 * 100 + charVal c3 * 10 + charVal c4)
        % 10 = charVal c4 := by
      rw [show charVal c1 * 1000 + charVal c2 * 100 + charVal c3 * 10 + charVal c4 =
        10 * (charVal c1 * 100 + charVal c2 * 10 + charVal c3) + charVal c4 from by ring,
        Nat.mul_add_mod]
      exact Nat.mod_eq_of_lt (by omega)
    have e5 : (charVal c6 * 10 + charVal c7) / 10 % 10 = charVal c6 := by
      rw [show charVal c6 * 10 + charVal c7 =
        10 * (10 * 0 + charVal c6) + charVal c7 from by ring]
      exact digit_of 0 _ (charVal c6) 10 (by norm_num) (by omega) hv6
    have e6 : (charVal c6 * 10 + charVal c7) % 10 = charVal c7 := by
      rw [show charVal c6 * 10 + charVal c7 = 10 * charVal c6 + charVal c7 from by ring,
        Nat.mul_add_mod]
      exact Nat.mod_eq_of_lt (by omega)
    have e7 : (charVal c9 * 10 + charVal c10) / 10 % 10 = charVal c9 := by
      rw [show charVal c9 * 10 + charVal c10 =
        10 * (10 * 0 + charVal c9) + charVal c10 from by ring]
      exact digit_of 0 _ (charVal c9) 10 (by norm_num) (by omega) hv9
    have e8 : (charVal c9 * 10 + charVal c10) % 10 = charVal c10 := by
      rw [show charVal c9 * 10 + charVal c10 = 10 * charVal c9 + charVal c10 from by ring,
        Nat.mul_add_mod]
      exact Nat.mod_eq_of_lt (by omega)
    constructor
    · show parseBirthday ⟨[c1, c2, c3, c4, c5, c6, c7, c8, c9, c10]⟩ = _
      simp only [parseBirthday]
      rw [if_pos ⟨hp1, hp2, hd1, hd2, hd3, hd4, hd6, hd7, hd9, hd10⟩, if_pos hval]
    · show renderDate _ = _
      unfold renderDate
      dsimp only
      rw [hp1, hp2]
      refine congrArg String.mk ?_
      rw [digitChar_eq c1 _ hb1 e1, digitChar_eq c2 _ hb2 e2, digitChar_eq c3 _ hb3 e3,
          digitChar_eq c4 _ hb4 e4, digitChar_eq c6 _ hb6 e5, digitChar_eq c7 _ hb7 e6,
          digitChar_eq c9 _ hb9 e7, digitChar_eq c10 _ hb10 e8]

/-- Witness for C8: the concrete pattern string "1990.05.18". -/
theorem birthday_parse_render_roundtrip_witness :
    isPattern "1990.05.18" = true ∧
    isValidDate (decodePattern "1990.05.18") = true ∧
    parseBirthday "1990.05.18" = .ok (decodePattern "1990.05.18") ∧
    renderDate (decodePattern "1990.05.18") = "1990.05.18" :=
  ⟨by decide, by decide,
   (birthday_parse_render_roundtrip "1990.05.18" (by decide) (by decide)).1,
   (birthday_parse_render_roundtrip "1990.05.18" (by decide) (by decide)).2⟩

/-- Membership in `keysFirstSeen` is membership in the original list. -/
theorem keysFirstSeen_mem : ∀ (L : List Nat) (x : Nat), x ∈ keysFirstSeen L ↔ x ∈ L := by
  intro L
  induction L using keysFirstSeen.induct with
  | case1 => intro x; simp [keysFirstSeen]
  | case2 k ks ih =>
    intro x
    rw [keysFirstSeen]
    by_cases hx : x = k
    · subst hx; simp
    · simp [ih, List.mem_filter, hx]

/-- Congruence for `flatMap` under pointwise equality on members. -/
theorem flatMap_congr_mem {α β : Type} (l : List α) (f g : α → List β)
    (h : ∀ a ∈ l, f a = g a) : l.flatMap f = l.flatMap g := by
  induction l with
  | nil => rfl
  | cons a l ih =>
    simp only [List.flatMap_cons]
    rw [h a (by simp), ih (fun x hx => h x (by simp [hx]))]

/-- Inserting an unseen congratulation date appends a fresh group. -/
theorem insertBirthday_of_absent : ∀ (dict : List (Nat × List String)) (k : Nat) (n : String),
    dict.any (fun kv => kv.1 == k) = false →
    insertBirthday dict k n = dict ++ [(k, [n])] := by
  intro dict k n
  induction dict with
  | nil => intro _; rfl
  | cons kv rest ih =>
    intro h
    simp only [List.any_cons, Bool.or_eq_false_iff] at h
    obtain ⟨h1, h2⟩ := h
    obtain ⟨k0, ns⟩ := kv
    simp only [insertBirthday]
    rw [if_neg (by simpa using h1), ih h2]
    simp

/-- Inserting a congratulation date already in a nodup-keyed dict appends
the name to that key's group. -/
theorem insertBirthday_of_present : ∀ (dict : List (Nat × List String)) (k : Nat) (n : String),
    (dict.map Prod.fst).Nodup →
    dict.any (fun kv => kv.1 == k) = true →
    insertBirthday dict k n =
      dict.map (fun kv => if kv.1 == k then (kv.1, kv.2 ++ [n]) else kv) := by
  intro dict k n
  induction dict with
  | nil => intro _ h; simp at h
  | cons kv rest ih =>
    intro hnd h
    obtain ⟨k0, ns⟩ := kv
    rw [List.map_cons] at hnd
    obtain ⟨hnotmem, hndrest⟩ := List.nodup_cons.mp hnd
    by_cases hk : k0 = k
    · subst hk
      have hrest : rest.map (fun kv => if kv.1 == k0 then (kv.1, kv.2 ++ [n]) else kv) =
          rest := by
        rw [show rest.map (fun kv => if kv.1 == k0 then (kv.1, kv.2 ++ [n]) else kv) =
            rest.map id from List.map_congr_left (fun kv2 hkv2 => by
          have hne : kv2.1 ≠ k0 := fun hcon => hnotmem (by
            rw [← hcon]; exact List.mem_map.mpr ⟨kv2, hkv2, rfl⟩)
          simp [hne]), List.map_id]
      simp only [insertBirthday, if_pos rfl, List.map_cons, hrest]
      simp
    · have h' : rest.any (fun kv => kv.1 == k) = true := by
        simp only [List.any_cons] at h
        rcases Bool.or_eq_true_iff.mp h with h1 | h1
        · exact absurd (by simpa using h1) hk
        · exact h1
      simp only [insertBirthday, if_neg hk]
      rw [ih hndrest h']
      simp [hk]

/-- `insertBirthday` with an absent key appends the key; with a present key
it keeps the key list unchanged. -/
theorem insertBirthday_keys (dict : List (Nat × List String)) (k : Nat) (n : String)
    (hnd : (dict.map Prod.fst).Nodup) :
    (insertBirthday dict k n).map Prod.fst =
      (if dict.any (fun kv => kv.1 == k) then dict.map Prod.fst
       else dict.map Prod.fst ++ [k]) := by
  cases h : dict.any (fun kv => kv.1 == k) with
  | false => rw [insertBirthday_of_absent dict k n h]; simp
  | true =>
    rw [insertBirthday_of_present dict k n hnd h]
    simp only [if_true, List.map_map]
    refine List.map_congr_left (fun kv hkv => ?_)
    by_cases hk : kv.1 = k <;> simp [hk]

/-- Every entry produced by the scan stores `days_until_birthday` equal to
its congratulation ordinal minus today's ordinal. -/
theorem scan_days_invariant (today : Date) : ∀ (rs : List Record) (es : List Entry),
    scanOrderEntries today rs = .ok es →
    ∀ e ∈ es, e.days_until_birthday = (e.congratulation_ord : Int) - (toOrdinal today : Int) := by
  intro rs
  induction rs with
  | nil =>
    intro es h
    simp only [scanOrderEntries, Except.ok.injEq] at h
    subst h; simp
  | cons r rs ih =>
    intro es h
    cases hb : r.birthday with
    | none =>
      simp only [scanOrderEntries, hb] at h
      exact ih es h
    | some b =>
      cases hp : projectOnto b today with
      | error e2 =>
        simp only [scanOrderEntries, hb, hp] at h
        exact Except.noConfusion h
      | ok bty =>
        cases hs : scanOrderEntries today rs with
        | error e2 =>
          simp only [scanOrderEntries, hb, hp, hs] at h
          exact Except.noConfusion h
        | ok rest =>
          simp only [scanOrderEntries, hb, hp, hs, Except.ok.injEq] at h
          subst h
          intro e he
          by_cases hd : (congOrd bty : Int) - (toOrdinal today : Int) ≤ 7
          · rw [if_pos hd] at he
            rcases List.mem_cons.mp he with h1 | h1
            · subst h1; rfl
            · exact ih rest hs e h1
          · rw [if_neg hd] at he
            exact ih rest hs e he

/-- The dict-building loop is the scan followed by folding the insertions. -/
theorem buildDict_eq_scan (today : Date) : ∀ (rs : List Record) (dict : List (Nat × List String)),
    buildDict today rs dict = (scanOrderEntries today rs).map
      (fun es => es.foldl (fun d e => insertBirthday d e.congratulation_ord e.name) dict) := by
  intro rs
  induction rs with
  | nil => intro dict; simp [buildDict, scanOrderEntries, Except.map]
  | cons r rs ih =>
    intro dict
    cases hb : r.birthday with
    | none =>
      simp only [buildDict, scanOrderEntries, hb]
      exact ih dict
    | some b =>
      cases hp : projectOnto b today with
      | error e => simp [buildDict, scanOrderEntries, hb, hp, Except.map]
      | ok bty =>
        cases hs : scanOrderEntries today rs with
        | error e =>
          have h2 := ih (if (congOrd bty : Int) - (toOrdinal today : Int) ≤ 7 then
              insertBirthday dict (congOrd bty) r.name else dict)
          simp only [buildDict, scanOrderEntries, hb, hp, hs, Except.map] at h2 ⊢
          exact h2
        | ok rest =>
          by_cases hd : (congOrd bty : Int) - (toOrdinal today : Int) ≤ 7
          · have h2 := ih (insertBirthday dict (congOrd bty) r.name)
            simp only [buildDict, scanOrderEntries, hb, hp, hs, if_pos hd, Except.map] at h2 ⊢
            rw [h2]
            simp [List.foldl_cons]
          · have h2 := ih dict
            simp only [buildDict, scanOrderEntries, hb, hp, hs, if_neg hd, Except.map] at h2 ⊢
            rw [h2]

/-- `insertBirthday` preserves distinctness of the dict keys. -/
theorem insertBirthday_keys_nodup (dict : List (Nat × List String)) (k : Nat) (n : String)
    (hnd : (dict.map Prod.fst).Nodup) :
    ((insertBirthday dict k n).map Prod.fst).Nodup := by
  rw [insertBirthday_keys dict k n hnd]
  cases h : dict.any (fun kv => kv.1 == k) with
  | true => simpa [h] using hnd
  | false =>
    simp only [h, if_false, Bool.false_eq_true]
    rw [List.nodup_append]
    refine ⟨hnd, List.nodup_singleton k, ?_⟩
    intro a ha hamem
    have ha' : a = k := by simpa using hamem
    subst ha'
    obtain ⟨kv, hkv, hfst⟩ := List.mem_map.mp ha
    have := List.any_eq_false.mp h kv hkv
    exact this (by simp [hfst])

/-- An entry satisfying the scan invariant is rebuilt by `mkEntry`. -/
theorem mkEntry_self (t : Date) (e : Entry)
    (he : e.days_until_birthday = (e.congratulation_ord : Int) - (toOrdinal t : Int)) :
    mkEntry t e.congratulation_ord e.name = e := by
  cases e with
  | mk nm k d => simp only [mkEntry] at he ⊢; simp [he]

/-- A key membership test on the dict is a membership test on its key list. -/
theorem key_any (d : List (Nat × List String)) (k : Nat) :
    d.any (fun kv => kv.1 == k) = (d.map Prod.fst).any (fun x => x == k) := by
  induction d with
  | nil => rfl
  | cons kv rest ih => simp only [List.any_cons, List.map_cons, ih]

/-- Flattening the dict built by folding `insertBirthday` over a list of
entries groups the entries by congratulation date in first-encounter order,
appended after the groups already present in the dict. -/
theorem flatten_foldl_insert (t : Date) : ∀ (es : List Entry) (dict : List (Nat × List String)),
    (dict.map Prod.fst).Nodup →
    (∀ e ∈ es, e.days_until_birthday = (e.congratulation_ord : Int) - (toOrdinal t : Int)) →
    flattenDict t (es.foldl (fun d e => insertBirthday d e.congratulation_ord e.name) dict)
      = dict.flatMap (fun kv => kv.2.map (mkEntry t kv.1) ++
            es.filter (fun e => e.congratulation_ord == kv.1))
        ++ (keysFirstSeen ((es.map (fun e => e.congratulation_ord)).filter
              (fun k => !(dict.any (fun kv => kv.1 == k))))).flatMap
             (fun k => es.filter (fun e => e.congratulation_ord == k)) := by
  intro es
  induction es with
  | nil =>
    intro dict _ _
    simp [flattenDict, keysFirstSeen]
  | cons e es ih =>
    intro dict hnd hinv
    have hinv' : ∀ x ∈ es, x.days_until_birthday =
        (x.congratulation_ord : Int) - (toOrdinal t : Int) :=
      fun x hx => hinv x (List.mem_cons_of_mem _ hx)
    have hmk : mkEntry t e.congratulation_ord e.name = e :=
      mkEntry_self t e (hinv e (List.mem_cons_self _ _))
    rw [List.foldl_cons]
    cases hk : dict.any (fun kv => kv.1 == e.congratulation_ord) with
    | true =>
      rw [insertBirthday_of_present dict e.congratulation_ord e.name hnd hk]
      have hkeysg : ((dict.map (fun kv => if kv.1 == e.congratulation_ord then
          (kv.1, kv.2 ++ [e.name]) else kv)).map Prod.fst) = dict.map Prod.fst := by
        rw [List.map_map]
        refine List.map_congr_left (fun kv _ => ?_)
        by_cases h : kv.1 = e.congratulation_ord <;> simp [h]
      rw [ih _ (by rw [hkeysg]; exact hnd) hinv']
      have hany : ∀ k : Nat, ((dict.map (fun kv => if kv.1 == e.congratulation_ord then
          (kv.1, kv.2 ++ [e.name]) else kv)).any (fun kv => kv.1 == k)) =
          dict.any (fun kv => kv.1 == k) := by
        intro k
        rw [key_any, hkeysg, ← key_any]
      have hpred : ((es.map (fun x => x.congratulation_ord)).filter
            (fun k => !((dict.map (fun kv => if kv.1 == e.congratulation_ord then
              (kv.1, kv.2 ++ [e.name]) else kv)).any (fun kv => kv.1 == k)))) =
          ((es.map (fun x => x.congratulation_ord)).filter
            (fun k => !(dict.any (fun kv => kv.1 == k)))) := by
        refine List.filter_congr (fun k _ => ?_)
        rw [hany k]
      rw [List.flatMap_map, hpred]
      congr 1
      · refine flatMap_congr_mem dict _ _ (fun kv hkv => ?_)
        by_cases hkvk : kv.1 = e.congratulation_ord
        · have hb1 : (kv.1 == e.congratulation_ord) = true := by simp [hkvk]
          have hb2 : (e.congratulation_ord == kv.1) = true := by simp [hkvk]
          simp only [hb1, if_true, List.filter_cons, hb2, List.map_append]
          rw [hkvk]
          simp [hmk, List.append_assoc]
        · have hb1 : (kv.1 == e.congratulation_ord) = false := by simp [hkvk]
          have hb2 : (e.congratulation_ord == kv.1) = false := by
            simp [Ne.symm hkvk]
          simp only [hb1, Bool.false_eq_true, if_false, List.filter_cons, hb2]
      · rw [List.map_cons, List.filter_cons]
        have hke : (!(dict.any (fun kv => kv.1 == e.congratulation_ord))) = false := by
          rw [hk]; rfl
        simp only [hke, Bool.false_eq_true, if_false]
        refine flatMap_congr_mem _ _ _ (fun k hkmem => ?_)
        have hkin := (keysFirstSeen_mem _ k).mp hkmem
        have hkprop := (List.mem_filter.mp hkin).2
        have hkne : e.congratulation_ord ≠ k := by
          intro hcon
          rw [← hcon, hk] at hkprop
          simp at hkprop
        rw [List.filter_cons]
        have : (e.congratulation_ord == k) = false := by simp [hkne]
        simp only [this, Bool.false_eq_true, if_false]
    | false =>
      rw [insertBirthday_of_absent dict e.congratulation_ord e.name hk]
      have hnotmem : e.congratulation_ord ∉ dict.map Prod.fst := by
        intro hmem
        obtain ⟨kv, hkv, hfst⟩ := List.mem_map.mp hmem
        exact (List.any_eq_false.mp hk kv hkv) (by simp [hfst])
      have hnd' : (((dict ++ [(e.congratulation_ord, [e.name])]).map Prod.fst)).Nodup := by
        rw [List.map_append, List.nodup_append]
        refine ⟨hnd, by simp, ?_⟩
        intro a ha hamem
        have ha' : a = e.congratulation_ord := by simpa using hamem
        subst ha'
        exact hnotmem ha
      rw [ih _ hnd' hinv']
      have hany2 : ∀ k : Nat, ((dict ++ [(e.congratulation_ord, [e.name])]).any
          (fun kv => kv.1 == k)) =
          (dict.any (fun kv => kv.1 == k) || (e.congratulation_ord == k)) := by
        intro k
        rw [List.any_append]
        simp
      have hpred2 : ((es.map (fun x => x.congratulation_ord)).filter
            (fun k => !((dict ++ [(e.congratulation_ord, [e.name])]).any
              (fun kv => kv.1 == k)))) =
          (((es.map (fun x => x.congratulation_ord)).filter
            (fun k => !(dict.any (fun kv => kv.1 == k)))).filter
              (fun k => k != e.congratulation_ord)) := by
        rw [List.filter_filter]
        refine List.filter_congr (fun k _ => ?_)
        have hcomm : (e.congratulation_ord == k) = (k == e.congratulation_ord) := by
          by_cases hq : e.congratulation_ord = k
          · simp [hq]
          · simp [hq, Ne.symm hq]
        rw [hany2 k]
        simp only [Bool.not_or]
        rw [Bool.and_comm]
        congr 1
        simp only [bne, hcomm]
      rw [List.flatMap_append, hpred2]
      have hstep : ([(e.congratulation_ord, [e.name])].flatMap
            (fun kv => kv.2.map (mkEntry t kv.1) ++
              es.filter (fun x => x.congratulation_ord == kv.1))) =
          (e :: es).filter (fun x => x.congratulation_ord == e.congratulation_ord) := by
        simp only [List.flatMap_cons, List.flatMap_nil, List.append_nil,
          List.map_cons, List.map_nil, List.filter_cons]
        simp [hmk]
      rw [hstep]
      have hdictpart : (dict.flatMap (fun kv => kv.2.map (mkEntry t kv.1) ++
            es.filter (fun x => x.congratulation_ord == kv.1))) =
          (dict.flatMap (fun kv => kv.2.map (mkEntry t kv.1) ++
            (e :: es).filter (fun x => x.congratulation_ord == kv.1))) := by
        refine flatMap_congr_mem dict _ _ (fun kv hkv => ?_)
        have hne : (e.congratulation_ord == kv.1) = false := by
          have := List.any_eq_false.mp hk kv hkv
          have h2 : kv.1 ≠ e.congratulation_ord := by simpa using this
          simp [Ne.symm h2]
        rw [List.filter_cons]
        simp only [hne, Bool.false_eq_true, if_false]
      rw [hdictpart]
      have hgroups : ((keysFirstSeen (((es.map (fun x => x.congratulation_ord)).filter
            (fun k => !(dict.any (fun kv => kv.1 == k)))).filter
              (fun k => k != e.congratulation_ord))).flatMap
            (fun k => es.filter (fun x => x.congratulation_ord == k))) =
          ((keysFirstSeen (((es.map (fun x => x.congratulation_ord)).filter
            (fun k => !(dict.any (fun kv => kv.1 == k)))).filter
              (fun k => k != e.congratulation_ord))).flatMap
            (fun k => (e :: es).filter (fun x => x.congratulation_ord == k))) := by
        refine flatMap_congr_mem _ _ _ (fun k hkmem => ?_)
        have hkin := (keysFirstSeen_mem _ k).mp hkmem
        have hkne : k ≠ e.congratulation_ord := by
          have := (List.mem_filter.mp hkin).2
          simpa using this
        rw [List.filter_cons]
        have : (e.congratulation_ord == k) = false := by simp [Ne.symm hkne]
        simp only [this, Bool.false_eq_true, if_false]
      rw [hgroups]
      have hkeyscons : (((e :: es).map (fun x => x.congratulation_ord)).filter
            (fun k => !(dict.any (fun kv => kv.1 == k)))) =
          e.congratulation_ord :: ((es.map (fun x => x.congratulation_ord)).filter
            (fun k => !(dict.any (fun kv => kv.1 == k)))) := by
        rw [List.map_cons, List.filter_cons]
        have : (!(dict.any (fun kv => kv.1 == e.congratulation_ord))) = true := by
          rw [hk]; rfl
        simp only [this, if_true]
      rw [hkeyscons, keysFirstSeen, List.flatMap_cons, List.append_assoc]

/-- The birthday query is exactly: scan the directory, keep the passing
records in scan order, then group by congratulation date in first-encounter
order. -/
theorem upcoming_eq_grouped (book : List Record) (today : Date) :
    get_upcoming_birthdays book today =
      (scanOrderEntries today book).map groupByFirstSeenDate := by
  unfold get_upcoming_birthdays
  rw [buildDict_eq_scan]
  cases hs : scanOrderEntries today book with
  | error e => rfl
  | ok es =>
    simp only [Except.map]
    congr 1
    have hinv := scan_days_invariant today book es hs
    have h := flatten_foldl_insert today es [] (by simp) hinv
    simp only [List.flatMap_nil, List.any_nil, Bool.not_false, List.nil_append,
      List.filter_true] at h
    rw [h, groupByFirstSeenDate]

/-- C2 (amended): the sequence returned by `get_upcoming_birthdays` is the
scan-order sequence of passing entries grouped by congratulation date, the
groups appearing in the order each congratulation date is first encountered
while scanning the directory, and entries inside a group keeping scan order
(the dict preserves insertion order; it is not sorted by date). -/
theorem upcoming_grouped_first_seen (book : List Record) (today : Date) :
    get_upcoming_birthdays book today =
      (scanOrderEntries today book).map groupByFirstSeenDate :=
  upcoming_eq_grouped book today

/-- The leap-year test, arithmetically. -/
theorem isLeap_eq_true_iff (y : Nat) :
    isLeap y = true ↔ (y % 4 = 0 ∧ (y % 100 ≠ 0 ∨ y % 400 = 0)) := by
  simp [isLeap]

/-- One Gregorian year adds 365 or 366 days to the ordinal origin. -/
theorem daysBeforeYear_succ (y : Nat) (hy : 1 ≤ y) :
    daysBeforeYear (y + 1) = daysBeforeYear y + (if isLeap y then 366 else 365) := by
  have hiff := isLeap_eq_true_iff y
  cases hl : isLeap y with
  | true =>
    rw [hl] at hiff
    have hc : y % 4 = 0 ∧ (y % 100 ≠ 0 ∨ y % 400 = 0) := hiff.mp rfl
    simp only [if_true]
    unfold daysBeforeYear
    omega
  | false =>
    have hc : ¬(y % 4 = 0 ∧ (y % 100 ≠ 0 ∨ y % 400 = 0)) := by
      rw [← hiff, hl]; simp
    push_neg at hc
    simp only [Bool.false_eq_true, if_false]
    unfold daysBeforeYear
    by_cases h4 : y % 4 = 0
    · rcases hc h4 with ⟨h100, h400⟩
      omega
    · omega

/-- A month offset plus a day inside the month stays within the year. -/
theorem daysBeforeMonth_add_day_le (y m d : Nat) (hm1 : 1 ≤ m) (hm2 : m ≤ 12)
    (hd : d ≤ daysInMonth y m) :
    daysBeforeMonth y m + d ≤ (if isLeap y then 366 else 365) := by
  cases hl : isLeap y with
  | true =>
    interval_cases m <;> simp_all [daysBeforeMonth, daysInMonth] <;> omega
  | false =>
    interval_cases m <;> simp_all [daysBeforeMonth, daysInMonth] <;> omega

/-- A valid date's ordinal does not pass the end of its year. -/
theorem toOrdinal_le_year_end (dt : Date) (h : isValidDate dt = true) :
    toOrdinal dt ≤ daysBeforeYear (dt.year + 1) := by
  have hv : 1 ≤ dt.year ∧ dt.year ≤ 9999 ∧ 1 ≤ dt.month ∧ dt.month ≤ 12 ∧
      1 ≤ dt.day ∧ dt.day ≤ daysInMonth dt.year dt.month := by
    simpa [isValidDate] using h
  obtain ⟨hy1, _, hm1, hm2, _, hd2⟩ := hv
  have hb := daysBeforeMonth_add_day_le dt.year dt.month dt.day hm1 hm2 hd2
  have hs := daysBeforeYear_succ dt.year hy1
  unfold toOrdinal
  cases hl : isLeap dt.year with
  | true =>
    rw [hl] at hb hs
    simp only [if_true] at hb hs
    omega
  | false =>
    rw [hl] at hb hs
    simp only [Bool.false_eq_true, if_false] at hb hs
    omega

/-- The year projection of hw.py lines 79-84 never lands before today. -/
theorem projectOnto_ge (b today : Date) (htoday : isValidDate today = true)
    (bty : Date) (hp : projectOnto b today = .ok bty) :
    toOrdinal today ≤ toOrdinal bty := by
  cases hrep : replaceYear b today.year with
  | none =>
    simp only [projectOnto, hrep] at hp
    exact Except.noConfusion hp
  | some bty0 =>
    simp only [projectOnto, hrep] at hp
    by_cases hlt : toOrdinal bty0 < toOrdinal today
    · rw [if_pos hlt] at hp
      cases hrep2 : replaceYear bty0 (today.year + 1) with
      | none => rw [hrep2] at hp; exact Except.noConfusion hp
      | some bty1 =>
        rw [hrep2] at hp
        simp only [Except.ok.injEq] at hp
        subst hp
        unfold replaceYear at hrep2
        by_cases hv : isValidDate ⟨today.year + 1, bty0.month, bty0.day⟩ = true
        · rw [if_pos hv] at hrep2
          simp only [Option.some.injEq] at hrep2
          have hvv : 1 ≤ today.year + 1 ∧ today.year + 1 ≤ 9999 ∧ 1 ≤ bty0.month ∧
              bty0.month ≤ 12 ∧ 1 ≤ bty0.day ∧
              bty0.day ≤ daysInMonth (today.year + 1) bty0.month := by
            simpa [isValidDate] using hv
          obtain ⟨_, _, _, _, hd1, _⟩ := hvv
          have h1 := toOrdinal_le_year_end today htoday
          rw [← hrep2]
          have h2 : toOrdinal ⟨today.year + 1, bty0.month, bty0.day⟩ =
              daysBeforeYear (today.year + 1) +
              daysBeforeMonth (today.year + 1) bty0.month + bty0.day := rfl
          omega
        · rw [if_neg hv] at hrep2
          exact Option.noConfusion hrep2
    · rw [if_neg hlt] at hp
      simp only [Except.ok.injEq] at hp
      subst hp
      omega

/-- The weekend shift never moves the congratulation date backwards. -/
theorem congOrd_ge (bty : Date) : toOrdinal bty ≤ congOrd bty := by
  unfold congOrd
  split
  · omega
  · split
    · omega
    · omega

/-- Names of scan entries come from the scanned records. -/
theorem scan_names (today : Date) : ∀ (rs : List Record) (es : List Entry),
    scanOrderEntries today rs = .ok es → ∀ e ∈ es, e.name ∈ rs.map Record.name := by
  intro rs
  induction rs with
  | nil =>
    intro es h
    simp only [scanOrderEntries, Except.ok.injEq] at h
    subst h
    intro e he
    exact absurd he (List.not_mem_nil e)
  | cons r rs ih =>
    intro es h
    cases hb : r.birthday with
    | none =>
      simp only [scanOrderEntries, hb] at h
      intro e he
      rw [List.map_cons]
      exact List.mem_cons_of_mem _ (ih es h e he)
    | some b =>
      cases hp : projectOnto b today with
      | error e2 =>
        simp only [scanOrderEntries, hb, hp] at h
        exact Except.noConfusion h
      | ok bty =>
        cases hs : scanOrderEntries today rs with
        | error e2 =>
          simp only [scanOrderEntries, hb, hp, hs] at h
          exact Except.noConfusion h
        | ok rest =>
          simp only [scanOrderEntries, hb, hp, hs, Except.ok.injEq] at h
          subst h
          intro e he
          rw [List.map_cons]
          by_cases hd : (congOrd bty : Int) - (toOrdinal today : Int) ≤ 7
          · rw [if_pos hd] at he
            rcases List.mem_cons.mp he with h1 | h1
            · subst h1; exact List.mem_cons_self _ _
            · exact List.mem_cons_of_mem _ (ih rest hs e h1)
          · rw [if_neg hd] at he
            exact List.mem_cons_of_mem _ (ih rest hs e he)

/-- A record passing the window filter contributes its entry to the scan. -/
theorem scan_complete (today : Date) : ∀ (rs : List Record) (es : List Entry),
    scanOrderEntries today rs = .ok es →
    ∀ r ∈ rs, ∀ b bty, r.birthday = some b → projectOnto b today = .ok bty →
    (congOrd bty : Int) - (toOrdinal today : Int) ≤ 7 →
    (⟨r.name, congOrd bty, (congOrd bty : Int) - (toOrdinal today : Int)⟩ : Entry) ∈ es := by
  intro rs
  induction rs with
  | nil =>
    intro es h r hr
    exact absurd hr (List.not_mem_nil r)
  | cons r0 rs ih =>
    intro es h r hr b bty hb hp hle
    rcases List.mem_cons.mp hr with hr0 | hrs
    · subst hr0
      cases hs : scanOrderEntries today rs with
      | error e2 =>
        simp only [scanOrderEntries, hb, hp, hs] at h
        exact Except.noConfusion h
      | ok rest =>
        simp only [scanOrderEntries, hb, hp, hs, Except.ok.injEq] at h
        subst h
        rw [if_pos hle]
        exact List.mem_cons_self _ _
    · cases hb0 : r0.birthday with
      | none =>
        simp only [scanOrderEntries, hb0] at h
        exact ih es h r hrs b bty hb hp hle
      | some b0 =>
        cases hp0 : projectOnto b0 today with
        | error e2 =>
          simp only [scanOrderEntries, hb0, hp0] at h
          exact Except.noConfusion h
        | ok bty0 =>
          cases hs : scanOrderEntries today rs with
          | error e2 =>
            simp only [scanOrderEntries, hb0, hp0, hs] at h
            exact Except.noConfusion h
          | ok rest =>
            simp only [scanOrderEntries, hb0, hp0, hs, Except.ok.injEq] at h
            subst h
            have hmem := ih rest hs r hrs b bty hb hp hle
            by_cases hd : (congOrd bty0 : Int) - (toOrdinal today : Int) ≤ 7
            · rw [if_pos hd]
              exact List.mem_cons_of_mem _ hmem
            · rw [if_neg hd]
              exact hmem

/-- With distinct names, the only scan entry bearing a record's name is that
record's own entry, and it passed the window filter. -/
theorem scan_sound (today : Date) : ∀ (rs : List Record) (es : List Entry),
    (rs.map Record.name).Nodup →
    scanOrderEntries today rs = .ok es →
    ∀ r ∈ rs, ∀ b bty, r.birthday = some b → projectOnto b today = .ok bty →
    ∀ e ∈ es, e.name = r.name →
      e = ⟨r.name, congOrd bty, (congOrd bty : Int) - (toOrdinal today : Int)⟩ ∧
      (congOrd bty : Int) - (toOrdinal today : Int) ≤ 7 := by
  intro rs
  induction rs with
  | nil =>
    intro es _ h r hr
    exact absurd hr (List.not_mem_nil r)
  | cons r0 rs ih =>
    intro es hnd h r hr b bty hb hp e he hename
    rw [List.map_cons] at hnd
    obtain ⟨hn0, hnrest⟩ := List.nodup_cons.mp hnd
    rcases List.mem_cons.mp hr with hr0 | hrs
    · subst hr0
      cases hs : scanOrderEntries today rs with
      | error e2 =>
        simp only [scanOrderEntries, hb, hp, hs] at h
        exact Except.noConfusion h
      | ok rest =>
        simp only [scanOrderEntries, hb, hp, hs, Except.ok.injEq] at h
        subst h
        by_cases hd : (congOrd bty : Int) - (toOrdinal today : Int) ≤ 7
        · rw [if_pos hd] at he
          rcases List.mem_cons.mp he with h1 | h1
          · exact ⟨h1, hd⟩
          · exfalso
            have hmem := scan_names today rs rest hs e h1
            rw [hename] at hmem
            exact hn0 hmem
        · rw [if_neg hd] at he
          exfalso
          have hmem := scan_names today rs rest hs e he
          rw [hename] at hmem
          exact hn0 hmem
    · have hrname : r.name ∈ rs.map Record.name := List.mem_map.mpr ⟨r, hrs, rfl⟩
      cases hb0 : r0.birthday with
      | none =>
        simp only [scanOrderEntries, hb0] at h
        exact ih es hnrest h r hrs b bty hb hp e he hename
      | some b0 =>
        cases hp0 : projectOnto b0 today with
        | error e2 =>
          simp only [scanOrderEntries, hb0, hp0] at h
          exact Except.noConfusion h
        | ok bty0 =>
          cases hs : scanOrderEntries today rs with
          | error e2 =>
            simp only [scanOrderEntries, hb0, hp0, hs] at h
            exact Except.noConfusion h
          | ok rest =>
            simp only [scanOrderEntries, hb0, hp0, hs, Except.ok.injEq] at h
            subst h
            by_cases hd : (congOrd bty0 : Int) - (toOrdinal today : Int) ≤ 7
            · rw [if_pos hd] at he
              rcases List.mem_cons.mp he with h1 | h1
              · exfalso
                subst h1
                simp only [] at hename
                rw [← hename] at hrname
                exact hn0 hrname
              · exact ih rest hnrest hs r hrs b bty hb hp e h1 hename
            · rw [if_neg hd] at he
              exact ih rest hnrest hs r hrs b bty hb hp e he hename

/-- Grouping by first-seen date neither adds nor removes entries. -/
theorem mem_groupByFirstSeenDate (es : List Entry) (e : Entry) :
    e ∈ groupByFirstSeenDate es ↔ e ∈ es := by
  unfold groupByFirstSeenDate
  simp only [List.mem_flatMap]
  constructor
  · rintro ⟨k, _, hf⟩
    exact (List.mem_filter.mp hf).1
  · intro he
    refine ⟨e.congratulation_ord, ?_, ?_⟩
    · exact (keysFirstSeen_mem _ _).mpr (List.mem_map.mpr ⟨e, he, rfl⟩)
    · exact List.mem_filter.mpr ⟨he, by simp⟩

/-- C3: for a record with a birthday whose projection succeeds, an entry for
it appears in the result exactly when `0 <= days_until <= 7` for its observed
(congratulation) date; the lower bound always holds, so an observed date 7
days out is included and 8 days out is excluded. -/
theorem upcoming_mem_iff_window (book : List Record) (today : Date)
    (hvalid : isValidDate today = true)
    (hnodup : (book.map Record.name).Nodup)
    (es : List Entry) (hok : get_upcoming_birthdays book today = .ok es)
    (r : Record) (hr : r ∈ book) (b : Date) (hb : r.birthday = some b)
    (bty : Date) (hproj : projectOnto b today = .ok bty) :
    ((∃ e, e ∈ es ∧ e.name = r.name ∧ e.congratulation_ord = congOrd bty ∧
        e.days_until_birthday = (congOrd bty : Int) - (toOrdinal today : Int)) ↔
      (0 ≤ (congOrd bty : Int) - (toOrdinal today : Int) ∧
        (congOrd bty : Int) - (toOrdinal today : Int) ≤ 7)) := by
  have href := upcoming_eq_grouped book today
  rw [hok] at href
  cases hs : scanOrderEntries today book with
  | error e0 =>
    rw [hs] at href
    simp [Except.map] at href
  | ok es0 =>
    rw [hs] at href
    simp only [Except.map, Except.ok.injEq] at href
    subst href
    have hnonneg : 0 ≤ (congOrd bty : Int) - (toOrdinal today : Int) := by
      have h1 := projectOnto_ge b today hvalid bty hproj
      have h2 := congOrd_ge bty
      omega
    constructor
    · rintro ⟨e, he, hname, _, _⟩
      refine ⟨hnonneg, ?_⟩
      have he0 := (mem_groupByFirstSeenDate es0 e).mp he
      exact (scan_sound today book es0 hnodup hs r hr b bty hb hproj e he0 hname).2
    · rintro ⟨_, hle⟩
      refine ⟨⟨r.name, congOrd bty, (congOrd bty : Int) - (toOrdinal today : Int)⟩,
        ?_, rfl, rfl, rfl⟩
      exact (mem_groupByFirstSeenDate _ _).mpr
        (scan_complete today book es0 hs r hr b bty hb hproj hle)

/-- Witness for C3: the 2024-05-17 book with a single 05-18 birthday, whose
observed date is 3 days out and therefore included. -/
theorem upcoming_mem_iff_window_witness :
    ((∃ e, e ∈ [(⟨"Bob", 739026, 3⟩ : Entry)] ∧ e.name = "Bob" ∧
        e.congratulation_ord = congOrd ⟨2024, 5, 18⟩ ∧
        e.days_until_birthday =
          (congOrd ⟨2024, 5, 18⟩ : Int) - (toOrdinal ⟨2024, 5, 17⟩ : Int)) ↔
      (0 ≤ (congOrd ⟨2024, 5, 18⟩ : Int) - (toOrdinal ⟨2024, 5, 17⟩ : Int) ∧
        (congOrd ⟨2024, 5, 18⟩ : Int) - (toOrdinal ⟨2024, 5, 17⟩ : Int) ≤ 7)) :=
  upcoming_mem_iff_window [⟨"Bob", [], some ⟨1990, 5, 18⟩⟩] ⟨2024, 5, 17⟩
    (by decide) (by simp) [⟨"Bob", 739026, 3⟩] rfl
    ⟨"Bob", [], some ⟨1990, 5, 18⟩⟩ (List.mem_singleton.mpr rfl)
    ⟨1990, 5, 18⟩ rfl ⟨2024, 5, 18⟩ rfl
